import Mathlib

/-!
Verification of the go_cache_lib repository: a redis-based distributed lock
(lua acquire script, blocking acquire loop with retry, lock handle with
release/refresh and an auto-refresh watchdog), a fixed-interval retry
strategy, an in-process expiring cache, and an LRU cache.

Shallow embedding conventions:
  * Go `time.Duration` is an int64 count of nanoseconds; it is embedded as `Int`.
  * The redis store is an association list from keys to records; a record holds
    the stored string value (the ownership token) and its remaining lifetime in
    milliseconds (redis `PX` semantics; `EXPIRE` takes seconds, so it writes
    `seconds * 1000` into the same field).
  * Fallible Go calls return a value paired with `Option GoErr` (`none` = nil error).
-/

namespace GoCacheLib

/-- Errors that flow through the Go code: `context.DeadlineExceeded`, the
`redis.Nil` sentinel, `ErrLockNotHold`, and opaque transport failures. -/
inductive GoErr where
  | deadlineExceeded
  | redisNil
  | lockNotHold
  | transport (code : Nat)
deriving DecidableEq, Repr

/-- A record stored in redis under a lock key: the stored value (the caller's
token) together with its remaining time-to-live in milliseconds. -/
structure Record where
  token : String
  pxMillis : Int
deriving DecidableEq, Repr

/-- The redis key space relevant to the lock: an association list keyed by the
lock key. Lookups take the first binding, like a map. -/
abbrev Store := List (String × Record)

/-- `GET key`: the first binding for `key`, if any. -/
def storeGet : Store → String → Option Record
  | [], _ => none
  | p :: rest, k => if p.1 == k then some p.2 else storeGet rest k

/-- `EXPIRE key seconds`: reset the ttl of `key`'s record to `seconds` seconds
(stored as milliseconds), leaving the stored value unchanged. -/
def storeExpire (s : Store) (k : String) (seconds : Int) : Store :=
  s.map (fun p => if p.1 == k then (p.1, { p.2 with pxMillis := seconds * 1000 }) else p)

/-- `DEL key`: remove every binding of `key`. -/
def storeDel (s : Store) (k : String) : Store :=
  s.filter (fun p => !(p.1 == k))

/-- lua/lock.lua: `GET key`; if absent, `SET key ARGV[1] PX ARGV[2]` and return
"OK"; if the stored value equals `ARGV[1]`, `EXPIRE key ARGV[2]` and return
"OK"; otherwise return "" with no mutation. The same `ARGV[2]` is passed to
`PX` (milliseconds) on creation and to `EXPIRE` (seconds) on refresh, exactly
as in the script. -/
def lockScript (s : Store) (key token : String) (ttlArg : Int) : Store × String :=
  match storeGet s key with
  | none => ((key, ⟨token, ttlArg⟩) :: s, "OK")
  | some r => if r.token = token then (storeExpire s key ttlArg, "OK") else (s, "")

/-- Go `time.Duration.Seconds()` for a whole number of seconds: the duration is
nanoseconds, so the value sent over the wire is `d / 10^9`. (Go returns a
float64; on whole-second durations the float is exact, and all inputs used in
the theorems below are whole seconds.) -/
def durationSeconds (d : Int) : Int := d / 1000000000

/-- client.go `Client.Lock` attempt body: `Eval(luaLock, {key}, val,
expiration.Seconds())` — the script's `ARGV[2]` is the duration converted to
seconds. -/
def clientLockAttempt (s : Store) (key val : String) (expiration : Int) : Store × String :=
  lockScript s key val (durationSeconds expiration)

/-- retry.go `FixIntervalRetry`: a constant interval (nanoseconds), a maximum
attempt count, and the attempts-so-far counter `cnt` (zero-initialized, as the
unexported Go field is). -/
structure FixIntervalRetry where
  interval : Int
  max : Int
  cnt : Int
deriving DecidableEq, Repr

/-- retry.go `FixIntervalRetry.Next`: `f.cnt++; return f.Interval, f.cnt <= f.Max`.
Returned value first, updated receiver second. -/
def FixIntervalRetry.Next (f : FixIntervalRetry) : (Int × Bool) × FixIntervalRetry :=
  let f' : FixIntervalRetry := { f with cnt := f.cnt + 1 }
  ((f.interval, decide (f'.cnt ≤ f.max)), f')

/-- The retry state after `k` calls to `Next`. -/
def iterNext (f : FixIntervalRetry) : Nat → FixIntervalRetry
  | 0 => f
  | k + 1 => (iterNext f k).Next.2

/-- One iteration's worth of environment input to the `Client.Lock` loop: the
`Eval(luaLock, ...)` round-trip result (`res`, the `interface{}` result, and
`err`), and whether `ctx.Done()` fires during the subsequent retry wait. -/
structure Attempt where
  res : Option String
  err : Option GoErr
  ctxDoneDuringWait : Bool
deriving DecidableEq, Repr

/-- The outcomes of client.go `Client.Lock`. -/
inductive LockOutcome where
  | success
  | deadlineExceeded
  | retriesExhausted (lastErr : Option GoErr)
  | ctxCancelled
deriving DecidableEq, Repr

/-- client.go `Client.Lock` retry loop, driven by a list of per-iteration
environment inputs (`none` result = the modelled attempt list ran out while the
loop was still going). Per iteration: if the attempt error is
`context.DeadlineExceeded`, return it; if the script returned "OK", return a
new lock; otherwise consult `retry.Next()` — on stop, return the
retries-exhausted error wrapping the last cause; on continue, wait, during
which `ctx.Done()` may fire and return `ctx.Err()`. -/
def lockLoop (retry : FixIntervalRetry) : List Attempt → Option LockOutcome
  | [] => none
  | a :: rest =>
    if a.err = some GoErr.deadlineExceeded then some LockOutcome.deadlineExceeded
    else if a.res = some "OK" then some LockOutcome.success
    else
      let next := retry.Next
      if !next.1.2 then some (LockOutcome.retriesExhausted a.err)
      else if a.ctxDoneDuringWait then some LockOutcome.ctxCancelled
      else lockLoop next.2 rest

/-- lock.go `Lock`: the handle built by `newLock`. The `unlock` channel field
is modelled as `Option Unit`: `some ()` for an allocated channel, `none` for
Go's nil channel (the struct field's zero value). -/
structure GoLock where
  key : String
  val : String
  expired : Int
  unlock : Option Unit
deriving DecidableEq, Repr

/-- lock.go `newLock`: the struct literal sets `client`, `key`, `val` and
`expired` only; the `unlock` field is left at its zero value (nil channel). -/
def newLock (k v : String) (d : Int) : GoLock :=
  { key := k, val := v, expired := d, unlock := none }

/-- lock.go `DelSuccess int64 = 1`. -/
def DelSuccess : Int := 1

/-- Modelled from the spec: the file lua/unlock.lua is embedded by lock.go but
is not under src. Spec §6, atomic release script: "given key, token — compare
stored value to token; on match, DEL key and return a count-deleted code; on
mismatch, return 0, making no mutation" (an absent key compares unequal to the
token, hence 0). -/
def unlockScript (s : Store) (key token : String) : Store × Int :=
  match storeGet s key with
  | some r => if r.token = token then (storeDel s key, 1) else (s, 0)
  | none => (s, 0)

/-- lock.go `Lock.UnLock`: `res, err := Eval(luaUnlock, {key}, val).Int64()`;
`if err == redis.Nil || res != DelSuccess { return ErrLockNotHold }`;
`if err != nil { return err }`; `return nil`. A failed round-trip is modelled
by `transportErr = some e`: the script does not run and, as in go-redis,
`Int64()` then returns `(0, e)`. Result: the store afterwards and the returned
error. -/
def unLock (s : Store) (key val : String) (transportErr : Option GoErr) : Store × Option GoErr :=
  let rr : Store × Int × Option GoErr :=
    match transportErr with
    | some e => (s, 0, some e)
    | none =>
      let sr := unlockScript s key val
      (sr.1, sr.2, none)
  if rr.2.2 = some GoErr.redisNil ∨ rr.2.1 ≠ DelSuccess then (rr.1, some GoErr.lockNotHold)
  else if rr.2.2 ≠ none then (rr.1, rr.2.2)
  else (rr.1, none)

/-- One event consumed by the `AutoRefresh` select loop: a ticker tick or an
out-of-band wake-up (each carrying the resulting `Refresh` error), or the
`unlock` stop-signal firing. -/
inductive AREvent where
  | tick (refreshErr : Option GoErr)
  | wake (refreshErr : Option GoErr)
  | unlockSignal
deriving DecidableEq, Repr

/-- How lock.go `Lock.AutoRefresh` exits: `nil` on the stop-signal, or the
first non-timeout `Refresh` error. -/
inductive AROutcome where
  | stopped
  | failed (e : GoErr)
deriving DecidableEq, Repr

/-- lock.go `Lock.AutoRefresh` select loop over an event trace (`none` = the
modelled trace ran out while the loop was still running). On a tick or wake:
a `context.DeadlineExceeded` refresh schedules an immediate wake and continues;
any other non-nil error is returned; nil continues. On the stop-signal the
loop returns nil. -/
def autoRefresh : List AREvent → Option AROutcome
  | [] => none
  | AREvent.unlockSignal :: _ => some AROutcome.stopped
  | AREvent.tick e :: rest =>
    if e = some GoErr.deadlineExceeded then autoRefresh rest
    else
      match e with
      | some err => some (AROutcome.failed err)
      | none => autoRefresh rest
  | AREvent.wake e :: rest =>
    if e = some GoErr.deadlineExceeded then autoRefresh rest
    else
      match e with
      | some err => some (AROutcome.failed err)
      | none => autoRefresh rest

/-- local_cache `Item`: a stored object and its absolute expiry time as a unix
timestamp in seconds (`0` = no expiry). The Go `Obj any` payload is embedded as
`Int`; the claims only move it around unchanged. -/
structure Item where
  obj : Int
  expireTime : Int
deriving DecidableEq, Repr

/-- local_cache `Item.Expired` with the clock (`time.Now().Unix()`) passed
explicitly: `ExpireTime == 0` is never expired; otherwise expired when
`now > ExpireTime`. -/
def Item.isExpired (i : Item) (now : Int) : Bool :=
  if i.expireTime == 0 then false else decide (now > i.expireTime)

/-- The `items map[string]Item` field, as an association list (first binding
wins, like a map lookup). -/
abbrev Items := List (String × Item)

/-- `item, ok := c.items[k]`. -/
def itemsFind : Items → String → Option Item
  | [], _ => none
  | p :: rest, k => if p.1 == k then some p.2 else itemsFind rest k

/-- local_cache `cache.Get` with the clock passed explicitly: missing key gives
`(nil, false)`; a positive expiry strictly before `now` gives `(nil, false)`;
otherwise `(item.Obj, true)`. -/
def cacheGet (items : Items) (k : String) (now : Int) : Option Int × Bool :=
  match itemsFind items k with
  | none => (none, false)
  | some item =>
    if item.expireTime > 0 then
      if now > item.expireTime then (none, false)
      else (some item.obj, true)
    else (some item.obj, true)

/-- lru.go `DefaultCapacity = 16`. -/
def DefaultCapacity : Int := 16

/-- lru.go `LRUCache`. The map plus doubly-linked list pair is embedded as the
recency-ordered list of `(key, value)` nodes, head first (`order.head? ` is the
`head` pointer, the last element is `tail`); the `cache` map holds exactly the
keys of `order`, so the map's entry count is `order.length`. -/
structure LRUCache where
  capacity : Int
  order : List (Int × Int)
deriving DecidableEq, Repr

/-- lru.go `Constructor`: a non-positive capacity is replaced by
`DefaultCapacity`; the cache starts empty. -/
def Constructor (capacity : Int) : LRUCache :=
  { capacity := if capacity ≤ 0 then DefaultCapacity else capacity, order := [] }

/-- lru.go `LRUCache.Get`: on a hit, unlink the node and relink it at the head,
returning its value; on a miss return -1. -/
def lruGet (c : LRUCache) (key : Int) : LRUCache × Int :=
  match c.order.find? (fun p => p.1 == key) with
  | some n => ({ c with order := n :: c.order.eraseP (fun p => p.1 == key) }, n.2)
  | none => (c, -1)

/-- lru.go `LRUCache.Put`: if the key exists, update its value and move the
node to the head; otherwise build a new node and, when `len(cache) == capacity`,
first delete the tail's key from the map and unlink the tail, then link the new
node at the head and insert it into the map. -/
def lruPut (c : LRUCache) (key value : Int) : LRUCache :=
  match c.order.find? (fun p => p.1 == key) with
  | some _ => { c with order := (key, value) :: c.order.eraseP (fun p => p.1 == key) }
  | none =>
    let afterEvict := if (c.order.length : Int) == c.capacity then c.order.dropLast else c.order
    { c with order := (key, value) :: afterEvict }

/-- A client-visible LRU operation. -/
inductive LRUOp where
  | put (k v : Int)
  | get (k : Int)
deriving DecidableEq, Repr

/-- Apply one LRU operation, discarding `Get`'s returned value. -/
def applyLRUOp (c : LRUCache) : LRUOp → LRUCache
  | LRUOp.put k v => lruPut c k v
  | LRUOp.get k => (lruGet c k).1

/-- Run a sequence of LRU operations. -/
def runLRUOps (c : LRUCache) (ops : List LRUOp) : LRUCache :=
  ops.foldl applyLRUOp c

/-! Helper lemmas about the store. -/

theorem storeGet_storeExpire_of_some (s : Store) (k : String) (t : Int) (r : Record)
    (h : storeGet s k = some r) :
    storeGet (storeExpire s k t) k = some ⟨r.token, t * 1000⟩ := by
  induction s with
  | nil => simp [storeGet] at h
  | cons p rest ih =>
    by_cases hp : (p.1 == k) = true
    · simp only [storeGet, hp, if_pos, Option.some.injEq] at h
      simp [storeExpire, storeGet, hp, ← h]
    · simp only [storeGet, hp, if_neg, Bool.false_eq_true, if_false] at h
      have ih' := ih h
      simpa [storeExpire, storeGet, hp] using ih'

theorem storeGet_storeDel (s : Store) (k : String) :
    storeGet (storeDel s k) k = none := by
  induction s with
  | nil => rfl
  | cons p rest ih =>
    by_cases hp : (p.1 == k) = true
    · simpa [storeDel, List.filter_cons, hp] using ih
    · simpa [storeDel, List.filter_cons, hp, storeGet] using ih

/-- C1: the atomic acquire script is a three-way case split. If no record
exists for the key, it creates one holding the caller's token and ttl argument
and reports the success marker "OK" (Created); if the stored token equals the
caller's, it refreshes that record's ttl (EXPIRE, leaving the token unchanged)
and reports "OK" (HeldBySame); otherwise it reports the failure marker ""
(HeldByOther) and leaves the store unmutated. -/
theorem lock_acquire_three_way (s : Store) (key token : String) (ttl : Int) :
    (storeGet s key = none →
      lockScript s key token ttl = ((key, ⟨token, ttl⟩) :: s, "OK")) ∧
    (∀ r : Record, storeGet s key = some r → r.token = token →
      lockScript s key token ttl = (storeExpire s key ttl, "OK") ∧
      storeGet (storeExpire s key ttl) key = some ⟨token, ttl * 1000⟩) ∧
    (∀ r : Record, storeGet s key = some r → r.token ≠ token →
      lockScript s key token ttl = (s, "")) := by
  refine ⟨?_, ?_, ?_⟩
  · intro h; simp [lockScript, h]
  · intro r h ht
    refine ⟨by simp [lockScript, h, ht], ?_⟩
    rw [storeGet_storeExpire_of_some s key ttl r h, ht]
  · intro r h ht; simp [lockScript, h, ht]

/-- Witness for C1: the three branches at concrete stores. -/
theorem lock_acquire_three_way_witness :
    lockScript [] "k" "t" 500 = ([("k", ⟨"t", 500⟩)], "OK") ∧
    (lockScript [("k", ⟨"t", 9⟩)] "k" "t" 500 = (storeExpire [("k", ⟨"t", 9⟩)] "k" 500, "OK") ∧
      storeGet (storeExpire [("k", ⟨"t", 9⟩)] "k" 500) "k" = some ⟨"t", 500 * 1000⟩) ∧
    lockScript [("k", ⟨"u", 9⟩)] "k" "t" 500 = ([("k", ⟨"u", 9⟩)], "") :=
  ⟨(lock_acquire_three_way [] "k" "t" 500).1 (by decide),
   (lock_acquire_three_way [("k", ⟨"t", 9⟩)] "k" "t" 500).2.1 ⟨"t", 9⟩ (by decide) rfl,
   (lock_acquire_three_way [("k", ⟨"u", 9⟩)] "k" "t" 500).2.2 ⟨"u", 9⟩ (by decide) (by decide)⟩

/-- C5: in the blocking acquire loop, a per-attempt `context.DeadlineExceeded`
from the store round-trip makes the whole call return DeadlineExceeded
immediately: for every retry-strategy state (the strategy is not consulted)
and every tail of further environment inputs (no further attempt is made), the
loop's result is `deadlineExceeded`. -/
theorem lock_attempt_deadline_fatal (retry : FixIntervalRetry) (res : Option String)
    (cd : Bool) (rest : List Attempt) :
    lockLoop retry
        ({ res := res, err := some GoErr.deadlineExceeded, ctxDoneDuringWait := cd } :: rest)
      = some LockOutcome.deadlineExceeded := by
  simp [lockLoop]

/-- C6: if the overall context is cancelled while the blocking acquire loop is
waiting out a retry interval (the attempt neither timed out nor succeeded, and
the retry strategy said continue), the call returns the context's cancellation
reason, for every tail of further inputs (the loop stops running). -/
theorem lock_ctx_cancel_aborts (retry : FixIntervalRetry) (a : Attempt)
    (rest : List Attempt) (h1 : a.err ≠ some GoErr.deadlineExceeded)
    (h2 : a.res ≠ some "OK") (h3 : retry.Next.1.2 = true)
    (h4 : a.ctxDoneDuringWait = true) :
    lockLoop retry (a :: rest) = some LockOutcome.ctxCancelled := by
  cases a with
  | mk res err cd => simp_all [lockLoop]

/-- Witness for C6 at a concrete attempt and retry state. -/
theorem lock_ctx_cancel_aborts_witness :
    lockLoop ⟨1, 3, 0⟩ [{ res := none, err := none, ctxDoneDuringWait := true }]
      = some LockOutcome.ctxCancelled :=
  lock_ctx_cancel_aborts ⟨1, 3, 0⟩ _ [] (by decide) (by decide) (by decide) rfl

theorem iterNext_cnt (I M : Int) (k : Nat) :
    iterNext ⟨I, M, 0⟩ k = ⟨I, M, (k : Int)⟩ := by
  induction k with
  | zero => rfl
  | succ n ih => simp [iterNext, ih, FixIntervalRetry.Next]

/-- C8: for the fixed-interval strategy with interval `I` and maximum `M`
started at counter 0, the call after `k` previous calls (the (k+1)-th call)
increments the counter to `k+1`, returns the constant interval `I`, and
returns shouldContinue `true` exactly when `k+1 ≤ M` — true for the first `M`
calls, false for every later one. -/
theorem fix_interval_retry_next (I M : Int) (k : Nat) :
    (iterNext ⟨I, M, 0⟩ k).Next
      = ((I, decide ((k : Int) + 1 ≤ M)), ⟨I, M, (k : Int) + 1⟩) := by
  rw [iterNext_cnt]
  simp [FixIntervalRetry.Next]

/-- C3, code-bug evidence: a transport failure during the UnLock round-trip is
reported as ErrLockNotHold rather than as the transport error. With the store
holding the caller's own record, `Eval(...).Int64()` on the failed command
yields `(0, transportError)`; the guard `err == redis.Nil || res != DelSuccess`
then fires on `res = 0 ≠ 1`, so the dead `if err != nil` branch is never
reached and the caller sees LockNotHeld for a transport failure. -/
theorem unlock_transport_error_misreported :
    unLock [("k", ⟨"t", 1000⟩)] "k" "t" (some (GoErr.transport 7))
      = ([("k", ⟨"t", 1000⟩)], some GoErr.lockNotHold) := by
  decide

/-- C4, code-bug evidence: `Client.Lock` passes `expiration.Seconds()` as the
script's ARGV[2], which the absent-key branch feeds to `SET ... PX` — a
millisecond count. For a requested ttl of 2 s (2000000000 ns) the freshly
created record therefore lives `pxMillis = 2` milliseconds, while the ttl
expressed in milliseconds is 2000000000 / 10^6 = 2000: the PX argument the
code sends differs from the ttl in milliseconds. -/
theorem lock_px_seconds_code_bug :
    (clientLockAttempt [] "k" "t" 2000000000).1 = [("k", ⟨"t", 2⟩)] ∧
    durationSeconds 2000000000 ≠ 2000000000 / 1000000 := by
  decide

/-- C2, code-bug evidence: `newLock` leaves the handle's `unlock` channel at
its zero value, a nil channel (first conjunct), and no repository code ever
sends on it; yet the `AutoRefresh` select loop reaches its clean nil exit only
by consuming the stop-signal (second conjunct). The stop path the claim relies
on is therefore unreachable on any handle an acquire returns: the watchdog has
no clean exit. -/
theorem autorefresh_stop_signal_unreachable :
    (∀ (k v : String) (d : Int), (newLock k v d).unlock = none) ∧
    (∀ evs : List AREvent, autoRefresh evs = some AROutcome.stopped →
      AREvent.unlockSignal ∈ evs) := by
  constructor
  · intro k v d; rfl
  · intro evs h
    induction evs with
    | nil => simp [autoRefresh] at h
    | cons e rest ih =>
      cases e with
      | unlockSignal => exact List.mem_cons_self _ _
      | tick err =>
        by_cases hd : err = some GoErr.deadlineExceeded
        · simp only [autoRefresh] at h; rw [if_pos hd] at h
          exact List.mem_cons_of_mem _ (ih h)
        · simp only [autoRefresh] at h; rw [if_neg hd] at h
          cases err with
          | none => exact List.mem_cons_of_mem _ (ih h)
          | some e => simp at h
      | wake err =>
        by_cases hd : err = some GoErr.deadlineExceeded
        · simp only [autoRefresh] at h; rw [if_pos hd] at h
          exact List.mem_cons_of_mem _ (ih h)
        · simp only [autoRefresh] at h; rw [if_neg hd] at h
          cases err with
          | none => exact List.mem_cons_of_mem _ (ih h)
          | some e => simp at h

/-- Witness for C2's theorem at a concrete handle and event trace. -/
theorem autorefresh_stop_signal_unreachable_witness :
    (newLock "k" "v" 5).unlock = none ∧
    AREvent.unlockSignal ∈ [AREvent.unlockSignal] :=
  ⟨autorefresh_stop_signal_unreachable.1 "k" "v" 5,
   autorefresh_stop_signal_unreachable.2 [AREvent.unlockSignal] rfl⟩

/-- C7: release is idempotent at the interface level. If the store holds the
caller's record, the first UnLock deletes it and returns nil (Ok); the key is
then absent, and a second UnLock with the same token returns ErrLockNotHold
(never Ok) and leaves the store unchanged. -/
theorem unlock_idempotent (s : Store) (key token : String) (r : Record)
    (hget : storeGet s key = some r) (htok : r.token = token) :
    unLock s key token none = (storeDel s key, none) ∧
    storeGet (storeDel s key) key = none ∧
    unLock (storeDel s key) key token none
      = (storeDel s key, some GoErr.lockNotHold) := by
  refine ⟨?_, storeGet_storeDel s key, ?_⟩
  · simp [unLock, unlockScript, hget, htok, DelSuccess]
  · simp [unLock, unlockScript, storeGet_storeDel s key, DelSuccess]

/-- Witness for C7 at a concrete one-record store. -/
theorem unlock_idempotent_witness :
    unLock [("k", ⟨"t", 900⟩)] "k" "t" none = (storeDel [("k", ⟨"t", 900⟩)] "k", none) ∧
    storeGet (storeDel [("k", ⟨"t", 900⟩)] "k") "k" = none ∧
    unLock (storeDel [("k", ⟨"t", 900⟩)] "k") "k" "t" none
      = (storeDel [("k", ⟨"t", 900⟩)] "k", some GoErr.lockNotHold) :=
  unlock_idempotent [("k", ⟨"t", 900⟩)] "k" "t" ⟨"t", 900⟩ (by decide) rfl

/-- C10: the expiring cache's Get never returns an expired value. If the
stored item has a positive expiry strictly in the past it returns
`(nil, false)` even though the item is still in the map (the janitor has not
deleted it), and an item with expiry 0 (no expiry) is always returned. -/
theorem cache_get_respects_expiry (items : Items) (k : String) (now : Int)
    (item : Item) (hfind : itemsFind items k = some item) :
    (0 < item.expireTime → item.expireTime < now →
      cacheGet items k now = (none, false)) ∧
    (item.expireTime = 0 → cacheGet items k now = (some item.obj, true)) := by
  constructor
  · intro h1 h2
    simp [cacheGet, hfind, h1, h2]
  · intro h0
    simp [cacheGet, hfind, h0]

/-- Witness for C10: an expired item and a no-expiry item at concrete inputs. -/
theorem cache_get_respects_expiry_witness :
    cacheGet [("a", ⟨42, 10⟩)] "a" 11 = (none, false) ∧
    cacheGet [("b", ⟨7, 0⟩)] "b" 11 = (some 7, true) :=
  ⟨(cache_get_respects_expiry [("a", ⟨42, 10⟩)] "a" 11 ⟨42, 10⟩ (by decide)).1
      (by decide) (by decide),
   (cache_get_respects_expiry [("b", ⟨7, 0⟩)] "b" 11 ⟨7, 0⟩ (by decide)).2 rfl⟩

/-! Helper lemmas for the LRU invariant. -/

theorem capacity_lruGet (c : LRUCache) (k : Int) :
    (lruGet c k).1.capacity = c.capacity := by
  unfold lruGet
  cases c.order.find? (fun p => p.1 == k) <;> rfl

theorem capacity_lruPut (c : LRUCache) (k v : Int) :
    (lruPut c k v).capacity = c.capacity := by
  unfold lruPut
  cases c.order.find? (fun p => p.1 == k) <;> rfl

theorem length_lruGet (c : LRUCache) (k : Int) :
    (lruGet c k).1.order.length = c.order.length := by
  unfold lruGet
  cases hf : c.order.find? (fun p => p.1 == k) with
  | none => rfl
  | some n =>
    have hmem := List.mem_of_find?_eq_some hf
    have hp := List.find?_some hf
    have hlen := List.length_eraseP_add_one (p := fun p => p.1 == k) hmem hp
    simpa [List.length_cons] using hlen

theorem length_lruPut_le (c : LRUCache) (k v : Int)
    (hcap : 1 ≤ c.capacity) (hlen : (c.order.length : Int) ≤ c.capacity) :
    ((lruPut c k v).order.length : Int) ≤ c.capacity := by
  unfold lruPut
  cases hf : c.order.find? (fun p => p.1 == k) with
  | some n =>
    have hmem := List.mem_of_find?_eq_some hf
    have hp := List.find?_some hf
    have he := List.length_eraseP_add_one (p := fun p => p.1 == k) hmem hp
    simp only [List.length_cons]
    omega
  | none =>
    by_cases hfull : ((c.order.length : Int) == c.capacity) = true
    · have hfull' : (c.order.length : Int) = c.capacity := by simpa using hfull
      have hne : c.order.length ≠ 0 := by omega
      simp only [hfull, if_true, List.length_cons, List.length_dropLast]
      omega
    · have hne : (c.order.length : Int) ≠ c.capacity := by simpa using hfull
      simp only [hfull, if_false, List.length_cons, Bool.false_eq_true]
      omega

theorem lru_inv_run (ops : List LRUOp) (c : LRUCache)
    (hcap : 1 ≤ c.capacity) (hlen : (c.order.length : Int) ≤ c.capacity) :
    (runLRUOps c ops).capacity = c.capacity ∧
    ((runLRUOps c ops).order.length : Int) ≤ c.capacity := by
  induction ops generalizing c with
  | nil => exact ⟨rfl, hlen⟩
  | cons op rest ih =>
    cases op with
    | put k v =>
      have hc := capacity_lruPut c k v
      have hl := length_lruPut_le c k v hcap hlen
      have := ih (lruPut c k v) (by rw [hc]; exact hcap) (by rw [hc]; exact hl)
      simpa [runLRUOps, applyLRUOp, hc] using this
    | get k =>
      have hc := capacity_lruGet c k
      have := ih (lruGet c k).1 (by rw [hc]; exact hcap)
        (by rw [hc, length_lruGet]; exact hlen)
      simpa [runLRUOps, applyLRUOp, hc] using this

/-- C9: capacity is an invariant of the LRU cache. Starting from
`Constructor cap` (whose capacity is `DefaultCapacity = 16` when the request
is non-positive, hence always at least 1), any sequence of Put and Get
operations keeps the number of map entries at most the capacity; and a Put of
a new key into a full cache evicts the tail (least recently used) node before
linking the new node at the head. -/
theorem lru_capacity_invariant (cap : Int) (ops : List LRUOp) :
    ((runLRUOps (Constructor cap) ops).order.length : Int)
        ≤ (Constructor cap).capacity ∧
    (∀ (c : LRUCache) (k v : Int), (c.order.length : Int) = c.capacity →
      c.order.find? (fun p => p.1 == k) = none →
      lruPut c k v = { c with order := (k, v) :: c.order.dropLast }) := by
  constructor
  · have hcap : 1 ≤ (Constructor cap).capacity := by
      simp only [Constructor]
      split
      · norm_num [DefaultCapacity]
      · omega
    have hlen : (((Constructor cap).order.length : Int)) ≤ (Constructor cap).capacity := by
      have horder : (Constructor cap).order = [] := rfl
      rw [horder]
      simp only [List.length_nil, Nat.cast_zero]
      omega
    exact (lru_inv_run ops (Constructor cap) hcap hlen).2
  · intro c k v hfull hnew
    unfold lruPut
    rw [hnew]
    simp [hfull]

/-- Witness for C9: three Puts into a capacity-2 cache stay within bound, and
the concrete full-cache Put evicts the tail. -/
theorem lru_capacity_invariant_witness :
    ((runLRUOps (Constructor 2) [LRUOp.put 1 10, LRUOp.put 2 20, LRUOp.put 3 30]).order.length : Int)
        ≤ (Constructor 2).capacity ∧
    lruPut ⟨2, [(2, 20), (1, 10)]⟩ 3 30 = ⟨2, [(3, 30), (2, 20)]⟩ := by
  refine ⟨(lru_capacity_invariant 2 [LRUOp.put 1 10, LRUOp.put 2 20, LRUOp.put 3 30]).1, ?_⟩
  have h := (lru_capacity_invariant 2 []).2 ⟨2, [(2, 20), (1, 10)]⟩ 3 30 (by decide) (by decide)
  exact h.trans (by decide)

end GoCacheLib


